import Mathlib

/-!
# echocat

A shallow embedding of `examples/unittest_echocat/echocat.c`: the small
multi-command utility with the sub-commands `hello`, `exit`, `cat` and `echo`.

Conventions of the embedding.

* A C `char` is a Lean `Char`; the program only copies characters and compares
  them with fixed constants, so nothing depends on the width of a `char`.
  A byte sequence (file content, stream content) is a `List Byte`.
* A C string (`char *` to a NUL-terminated array) is a `String` holding the
  characters in front of the terminator; a possibly null `char *` is an
  `Option String`, `none` being `NULL`.
* A `FILE *` is an `Option` of a stream, `none` being `NULL`.
* A function whose C behaviour can be undefined (a null pointer handed to the
  C library, a conversion that does not fit an `int`) returns an `Option`,
  `none` being "undefined behaviour".
-/

namespace Echocat

/-- A C `char`. -/
abbrev Byte := Char

/-- Line 5: `#define BUF_SIZE 1024`. -/
def BUF_SIZE : Nat := 1024

/-- Largest value of a C `int` (32 bits). -/
def INT_MAX : Int := 2147483647

/-- Smallest value of a C `int` (32 bits). -/
def INT_MIN : Int := -2147483648

/-! ## The environment of the process -/

/-- The part of the outside world the program can touch.

* `files p` is the content of the regular file at path `p`, `none` when there
  is no such file;
* `writable p` tells whether `fopen(p, "wb")` succeeds;
* `stdin` is what standard input delivers, `stdout` and `stderr` what has been
  written to standard output and standard error so far;
* `rfault = some k`: the source of the copy fails with a read error once `k`
  bytes have been delivered; `wfault = some k`: the destination of the copy
  fails with a write error once `k` more bytes have been accepted
  (`none`: no error). -/
structure World where
  files : String → Option (List Byte)
  writable : String → Bool
  stdin : List Byte
  stdout : List Byte
  stderr : List Byte
  rfault : Option Nat
  wfault : Option Nat

/-- A readable stream as `write_file` can hold one in `in`. -/
inductive RStream where
  | stdin
  | file (path : String)
  deriving DecidableEq, Repr

/-- A writable stream as `write_file` can hold one in `out`. -/
inductive WStream where
  | stdout
  | stderr
  | file (path : String)
  deriving DecidableEq, Repr

/-! ## C library -/

/-- C library `fopen(path, "rb")`: `NULL` when there is no such file. -/
def fopen_rb (path : String) (w : World) : Option RStream :=
  if (w.files path).isSome then some (RStream.file path) else none

/-- C library `fopen(path, "wb")`: `NULL` when the path cannot be written; otherwise the
file is created or truncated to length zero. -/
def fopen_wb (path : String) (w : World) : Option WStream × World :=
  if w.writable path then
    (some (WStream.file path),
      { w with files := fun p => if p = path then some [] else w.files p })
  else (none, w)

/-- The bytes an input stream delivers before it reports end of data or a read
error (after either, `fread` returns 0). -/
def pending (inp : RStream) (w : World) : List Byte :=
  let all := match inp with
    | RStream.stdin => w.stdin
    | RStream.file p => (w.files p).getD []
  match w.rfault with
  | none => all
  | some k => all.take k

/-- C library `fread(buffer, 1, n, in)` on a stream that still delivers `pend`: the
buffer filled (its length is the returned `size`) and what the stream delivers
afterwards. A count below `n` is returned only at end of data or on a read
error. -/
def fread (n : Nat) (pend : List Byte) : List Byte × List Byte :=
  (pend.take n, pend.drop n)

/-- Appending bytes to what a writable stream holds. -/
def put_bytes (out : WStream) (bs : List Byte) (w : World) : World :=
  match out with
  | WStream.stdout => { w with stdout := w.stdout ++ bs }
  | WStream.stderr => { w with stderr := w.stderr ++ bs }
  | WStream.file p =>
    { w with files := fun q => if q = p then some ((w.files p).getD [] ++ bs) else w.files q }

/-- C library `fwrite(buffer, 1, size, out)`, `buffer` being the `size` bytes to write;
on a write error only the bytes in front of the error are accepted. The
returned count is not modelled: line 40 ignores it. -/
def fwrite (buffer : List Byte) (out : WStream) (w : World) : World :=
  match w.wfault with
  | none => put_bytes out buffer w
  | some k => { put_bytes out (buffer.take k) w with wfault := some (k - buffer.length) }

/-- C library `puts(s)`: the string and a newline on standard output. -/
def puts (s : String) (w : World) : World :=
  { w with stdout := w.stdout ++ s.data ++ ['\n'] }

/-- C library `putchar(c)`: one character on standard output. -/
def putchar (c : Char) (w : World) : World :=
  { w with stdout := w.stdout ++ [c] }

/-- C library `printf("%s", s)`: the string on standard output. -/
def printf_s (s : String) (w : World) : World :=
  { w with stdout := w.stdout ++ s.data }

/-- C library `fprintf(stderr, ...)` with the formatted text `s`. -/
def fprintf_stderr (s : String) (w : World) : World :=
  { w with stderr := w.stderr ++ s.data }

/-- C library `isspace` in the C locale. -/
def isspace (c : Char) : Bool :=
  c = ' ' ∨ c = '\t' ∨ c = '\n' ∨ c = '\x0b' ∨ c = '\x0c' ∨ c = '\r'

/-- C library `isdigit`. -/
def isdigit (c : Char) : Bool :=
  '0'.toNat ≤ c.toNat ∧ c.toNat ≤ '9'.toNat

/-- Value of the longest run of decimal digits in front of `cs`, continuing
from `acc`. -/
def digits_value (acc : Nat) : List Char → Nat
  | [] => acc
  | c :: cs => if isdigit c then digits_value (acc * 10 + (c.toNat - '0'.toNat)) cs else acc

/-- The `%d` conversion of `scanf`: white space is skipped, then an optional
sign and a non-empty run of decimal digits are read. `none` is a matching or
input failure (nothing is stored). -/
def scan_int (s : List Char) : Option Int :=
  match s.dropWhile isspace with
  | [] => none
  | c :: cs =>
    if c = '-' then
      match cs with
      | [] => none
      | d :: _ => if isdigit d then some (-(digits_value 0 cs : Int)) else none
    else if c = '+' then
      match cs with
      | [] => none
      | d :: _ => if isdigit d then some (digits_value 0 cs : Int) else none
    else if isdigit c then some (digits_value 0 (c :: cs) : Int)
    else none

/-- C library `sscanf(s, "%d", &rc)` for a non-null `s`: the value of `rc` afterwards.
On a matching failure `rc` keeps its value; a converted value that does not fit
an `int` is undefined behaviour (`none`). -/
def sscanf_d (s : String) (rc : Int) : Option Int :=
  match scan_int s.data with
  | none => some rc
  | some v => if INT_MIN ≤ v ∧ v ≤ INT_MAX then some v else none

/-! ## echocat.c -/

/-- Lines 7-13. -/
def is_reg_file (name : Option String) : Bool :=
  match name with
  | none => false
  | some s => s != "-" && s != "stdin" && s != "stdout" && s != "stderr"

/-- Lines 18 and 20-24 of `write_file`: the stream left in `in`. -/
def open_in (fin : Option String) (w : World) : Option RStream :=
  let inp : Option RStream := some RStream.stdin
  match fin with
  | some p => if is_reg_file fin then fopen_rb p w else inp
  | none => inp

/-- Lines 19 and 26-34 of `write_file`: the stream left in `out`, and the world
after the `fopen`. -/
def open_out (fout : Option String) (w : World) : Option WStream × World :=
  let out : Option WStream := some WStream.stdout
  let out_reg := is_reg_file fout
  let out := if fout = some "stderr" then some WStream.stderr else out
  match fout with
  | some p => if out_reg then fopen_wb p w else (out, w)
  | none => (out, w)

/-- Lines 39-41 of `write_file`: the loop
`while ((size = fread(buffer, 1, BUF_SIZE, in)) > 0) fwrite(buffer, 1, size, out);`
on an input stream that still delivers `pend`. -/
def copy_loop (out : WStream) (pend : List Byte) (w : World) : World :=
  if 0 < (fread BUF_SIZE pend).1.length then
    copy_loop out (fread BUF_SIZE pend).2 (fwrite (fread BUF_SIZE pend).1 out w)
  else w
termination_by pend.length
decreasing_by
  simp only [fread, BUF_SIZE, List.length_take, List.length_drop] at *
  omega

/-- Lines 16-45. `none`: a null `FILE *` reaches `fread`, `fwrite` or `fclose`
(no `fopen` result is checked). Nothing is read before line 39, so what `in`
delivers is looked up in the world left by both opens; the loop cannot change
it, since it writes into the file behind `in` only when `out` is that same
file, which line 33 has then emptied. `fclose` changes nothing that is
modelled. -/
def write_file (fin fout : Option String) (w : World) : Option World :=
  let inp := open_in fin w
  let r := open_out fout w
  match inp, r.1 with
  | some i, some o => some (copy_loop o (pending i r.2) r.2)
  | _, _ => none

/-- Lines 65-69 of `main`: the `for` loop, at index `i` with `args` the
arguments `argv[i]`, ..., `argv[argc - 1]`. -/
def echo_loop : Nat → List String → World → World
  | _, [], w => w
  | i, a :: rest, w =>
    if a = "" then echo_loop (i + 1) rest w
    else
      let w1 := if i ≠ 2 then putchar ' ' w else w
      echo_loop (i + 1) rest (printf_s a w1)

/-- Lines 48-76: the returned status and the world afterwards. `argc` is the
length of `argv`; `argv[i]?` is `none` from `i = argc` on, where C has the null
pointer `argv[argc]` and nothing behind it. The result `none` is undefined
behaviour: `strcmp` or `sscanf` on such an `argv[i]`, an `int` that `%d` cannot
hold, or a null stream in `write_file`. -/
def main (argv : List String) (w : World) : Option (Int × World) :=
  let argc := argv.length
  if argc = 1 then some (0, puts "Hello world!" w)
  else
    match argv[1]? with
    | none => none
    | some cmd =>
      if cmd = "hello" then some (0, puts "Hello world!" w)
      else if cmd = "exit" then
        match argv[2]? with
        | none => none
        | some s => (sscanf_d s 0).map fun rc => (rc, w)
      else if cmd = "cat" then
        let inp := if argc ≥ 3 then argv[2]? else none
        let out := if argc ≥ 4 then argv[3]? else none
        (write_file inp out w).map fun w1 => (0, w1)
      else if cmd = "echo" then
        some (0, putchar '\n' (echo_loop 2 (argv.drop 2) w))
      else some (100, fprintf_stderr ("Unknown sub-command: " ++ cmd ++ " \n") w)

/-! ## Sample environments -/

/-- An environment without files, in which every path can be created, nothing
is pending on standard input and no device fails. -/
def World.blank : World :=
  { files := fun _ => none, writable := fun _ => true, stdin := [], stdout := [],
    stderr := [], rfault := none, wfault := none }

/-- Files `a` and `f` hold the two bytes `xy`, and there is a regular file
named `stdout`. -/
def World.demo : World :=
  { World.blank with
    files := fun p => if p = "a" ∨ p = "f" ∨ p = "stdout" then some ['x', 'y'] else none }

/-- As `World.demo`, with a destination device that accepts one byte and then
fails every write. -/
def World.full : World :=
  { World.demo with wfault := some 1 }

/-! ## Wording of the specification -/

/-- The words of an `echo` command that are not the empty string, joined by
single spaces. -/
def joined (words : List String) : List Char :=
  (String.intercalate " " (words.filter fun a => a ≠ "")).data

/-- The characters `cs` begin with an optionally signed decimal integer: an
optional `+` or `-`, then at least one decimal digit. -/
def begins_with_integer (cs : List Char) : Bool :=
  match cs with
  | [] => false
  | c :: rest =>
    if c = '-' ∨ c = '+' then
      match rest with
      | [] => false
      | d :: _ => isdigit d
    else isdigit c

/-- Every word with a space in front of it. -/
def spaced : List String → List Char
  | [] => []
  | a :: rest => ' ' :: a.data ++ spaced rest

/-! ## The `echo` loop -/

theorem intercalate_go_data (l : List String) : ∀ acc : String,
    (String.intercalate.go acc " " l).data = acc.data ++ spaced l := by
  induction l with
  | nil => intro acc; simp [String.intercalate.go, spaced]
  | cons a rest ih =>
    intro acc
    rw [String.intercalate.go, ih]
    simp [spaced]

theorem intercalate_cons_data (a : String) (rest : List String) :
    (String.intercalate " " (a :: rest)).data = a.data ++ spaced rest := by
  rw [String.intercalate, intercalate_go_data]

theorem echo_loop_later (args : List String) : ∀ (i : Nat) (w : World), 2 < i →
    echo_loop i args w =
      { w with stdout := w.stdout ++ spaced (args.filter fun a => a ≠ "") } := by
  induction args with
  | nil => intro i w _; simp [echo_loop, spaced]
  | cons a rest ih =>
    intro i w hi
    by_cases ha : a = ""
    · subst ha
      rw [echo_loop, if_pos rfl, ih (i + 1) w (by omega)]
      simp
    · rw [echo_loop, if_neg ha, if_pos (by omega), ih (i + 1) _ (by omega)]
      simp [List.filter, ha, spaced, printf_s, putchar]

/-- What the loop of `echo` writes, starting at index 2. -/
theorem echo_loop_first (a : String) (rest : List String) (w : World) :
    echo_loop 2 (a :: rest) w =
      { w with stdout := w.stdout ++
          ((if a = "" then [] else a.data) ++ spaced (rest.filter fun b => b ≠ "")) } := by
  by_cases ha : a = ""
  · subst ha
    rw [echo_loop, if_pos rfl, echo_loop_later rest (2 + 1) w (by decide)]
    simp
  · rw [echo_loop, if_neg ha, echo_loop_later rest (2 + 1) _ (by decide)]
    simp [ha, printf_s]

theorem main_echo (p : String) (words : List String) (w : World) :
    main (p :: "echo" :: words) w = some (0, putchar '\n' (echo_loop 2 words w)) := by
  simp [main]

theorem filter_nonempty_eq_nil {words : List String} :
    (words.filter fun a => a ≠ "") = [] ↔ ∀ a ∈ words, a = "" := by
  simp [List.filter_eq_nil_iff]

/-- What `echo` writes in front of the newline. -/
theorem echo_loop_joined (words : List String) (w : World) :
    echo_loop 2 words w =
      { w with stdout := w.stdout ++
          (if ∀ a ∈ words, a = "" then []
           else (if words.head? = some "" then [' '] else []) ++ joined words) } := by
  cases words with
  | nil => simp [echo_loop]
  | cons a rest =>
    rw [echo_loop_first]
    by_cases ha : a = ""
    · subst ha
      cases hf : (rest.filter fun b => b ≠ "") with
      | nil =>
        have hall : ∀ c ∈ "" :: rest, c = "" := by
          intro c hc
          rcases List.mem_cons.mp hc with h | h
          · exact h
          · exact filter_nonempty_eq_nil.mp hf c h
        rw [if_pos hall]
        simp [spaced]
      | cons b bs =>
        have hnot : ¬ ∀ c ∈ "" :: rest, c = "" := by
          intro h
          have hr : ∀ c ∈ rest, c = "" := fun c hc => h c (List.mem_cons_of_mem _ hc)
          rw [filter_nonempty_eq_nil.mpr hr] at hf
          cases hf
        have hj : joined ("" :: rest) = b.data ++ spaced bs := by
          simp only [joined, List.filter, ne_eq, not_true_eq_false, decide_False]
          rw [hf, intercalate_cons_data]
        rw [if_neg hnot, hj]
        simp [spaced]
    · have hnot : ¬ ∀ c ∈ a :: rest, c = "" := fun h => ha (h a (List.mem_cons_self a rest))
      have hj : joined (a :: rest) = a.data ++ spaced (rest.filter fun b => b ≠ "") := by
        simp only [joined, List.filter, ne_eq, ha, not_false_eq_true, decide_True]
        rw [intercalate_cons_data]
      rw [if_neg hnot, hj]
      simp [ha]

/-! ## The sub-commands `hello`, `exit`, `echo` and the unknown ones -/

/-- C9: an invocation without arguments and every invocation whose first
argument is `hello`, whatever follows it, write the line `Hello world!` to
standard output, change nothing else and return status 0. -/
theorem hello_and_no_argument (p : String) (rest : List String) (w : World) :
    main [p] w = some (0, { w with stdout := w.stdout ++ "Hello world!\n".data }) ∧
    main (p :: "hello" :: rest) w = main [p] w := by
  constructor
  · simp [main, puts]
  · simp [main]

/-- C5, at its failing input: with `argv` exactly the program name and `exit`,
`main` hands `argv[2]`, the null pointer that ends `argv`, to `sscanf`; no
status is returned. -/
theorem exit_without_operand (p : String) (w : World) :
    main [p, "exit"] w = none := by
  simp [main]

/-- C2, at its failing input: `echo "" b` writes a space, `b` and a newline,
so the output starts with a space. -/
theorem echo_empty_first (p : String) (w : World) :
    main [p, "echo", "", "b"] w = some (0, { w with stdout := w.stdout ++ " b\n".data }) := by
  simp [main, echo_loop, putchar, printf_s]

/-- C7: for a first argument `t` other than `hello`, `exit`, `cat` and `echo`,
whatever the remaining arguments, `main` returns 100, appends the text
`Unknown sub-command: t ` and a newline to standard error, which contains `t`,
and leaves standard output untouched. -/
theorem unknown_subcommand (p t : String) (rest : List String) (w : World)
    (h1 : t ≠ "hello") (h2 : t ≠ "exit") (h3 : t ≠ "cat") (h4 : t ≠ "echo") :
    main (p :: t :: rest) w =
        some (100, { w with stderr := w.stderr ++ ("Unknown sub-command: " ++ t ++ " \n").data }) ∧
      t.data <:+: ("Unknown sub-command: " ++ t ++ " \n").data ∧
      (main (p :: t :: rest) w).map (fun r => r.2.stdout) = some w.stdout := by
  have hm : main (p :: t :: rest) w =
      some (100, { w with stderr := w.stderr ++ ("Unknown sub-command: " ++ t ++ " \n").data }) := by
    simp [main, h1, h2, h3, h4, fprintf_stderr]
  refine ⟨hm, ?_, ?_⟩
  · exact ⟨"Unknown sub-command: ".data, " \n".data, by simp⟩
  · rw [hm]; rfl

theorem unknown_subcommand_witness :
    ("bogus" ≠ "hello" ∧ "bogus" ≠ "exit" ∧ "bogus" ≠ "cat" ∧ "bogus" ≠ "echo") ∧
    main ["echocat", "bogus", "x"] World.blank =
        some (100, { World.blank with
          stderr := World.blank.stderr ++ ("Unknown sub-command: " ++ "bogus" ++ " \n").data }) ∧
      "bogus".data <:+: ("Unknown sub-command: " ++ "bogus" ++ " \n").data ∧
      (main ["echocat", "bogus", "x"] World.blank).map (fun r => r.2.stdout) =
        some World.blank.stdout :=
  ⟨by decide, unknown_subcommand "echocat" "bogus" ["x"] World.blank
    (by decide) (by decide) (by decide) (by decide)⟩

/-- C8: when no word is the empty string, `echo w1 ... wn` writes the words
joined by single spaces and one newline to standard output and returns 0;
`echo` without a word writes a newline alone and returns 0. -/
theorem echo_nonempty_words (p : String) (words : List String) (w : World)
    (h : ∀ a ∈ words, a ≠ "") :
    main (p :: "echo" :: words) w =
        some (0, { w with stdout := w.stdout ++ ((String.intercalate " " words).data ++ ['\n']) }) ∧
      main [p, "echo"] w = some (0, { w with stdout := w.stdout ++ ['\n'] }) := by
  constructor
  · rw [main_echo]
    cases words with
    | nil => simp [echo_loop, putchar, String.intercalate]
    | cons a rest =>
      have ha : a ≠ "" := h a (List.mem_cons_self a rest)
      have hf : (rest.filter fun b => b ≠ "") = rest := by
        rw [List.filter_eq_self]
        intro b hb
        simpa using h b (List.mem_cons_of_mem a hb)
      rw [echo_loop_first, hf, intercalate_cons_data]
      simp [ha, putchar]
  · simp [main, echo_loop, putchar]

theorem echo_nonempty_words_witness :
    (∀ a ∈ ["a", "b", "c"], a ≠ "") ∧
      main ["echocat", "echo", "a", "b", "c"] World.blank =
        some (0, { World.blank with stdout := "a b c\n".data }) :=
  ⟨by decide, (echo_nonempty_words "echocat" ["a", "b", "c"] World.blank (by decide)).1⟩

/-- C10: for every `echo` argument list the output is a newline alone when
every word is empty; otherwise it is the non-empty words joined by single
spaces and followed by a newline, with one extra space in front exactly when
the first word is the empty string. The output is the join of the non-empty
words followed by a newline exactly when the first word is non-empty or all
words are empty. The status is 0. -/
theorem echo_output (p : String) (words : List String) (w : World) :
    ∃ out : List Char,
      main (p :: "echo" :: words) w = some (0, { w with stdout := w.stdout ++ out }) ∧
      out = (if ∀ a ∈ words, a = "" then ['\n']
             else (if words.head? = some "" then [' '] else []) ++ joined words ++ ['\n']) ∧
      (out = joined words ++ ['\n'] ↔
        ((∃ a rest, words = a :: rest ∧ a ≠ "") ∨ ∀ a ∈ words, a = "")) := by
  refine ⟨_, ?_, rfl, ?_⟩
  · rw [main_echo, echo_loop_joined]
    split_ifs <;> simp [putchar]
  · by_cases hall : ∀ a ∈ words, a = ""
    · have hj : joined words = [] := by
        unfold joined
        rw [filter_nonempty_eq_nil.mpr hall]
        rfl
      rw [if_pos hall, hj]
      exact ⟨fun _ => Or.inr hall, fun _ => rfl⟩
    · rw [if_neg hall]
      cases words with
      | nil => exact absurd (fun a ha => by cases ha) hall
      | cons a rest =>
        by_cases ha : a = ""
        · subst ha
          constructor
          · intro h
            have hl := congrArg List.length h
            simp at hl
          · rintro (⟨a, r, hw, hne⟩ | h)
            · cases hw
              exact absurd rfl hne
            · exact absurd h hall
        · simp [ha]

/-! ## The sub-command `cat` -/

theorem put_bytes_wfault (out : WStream) (bs : List Byte) (w : World) :
    (put_bytes out bs w).wfault = w.wfault := by
  cases out <;> rfl

theorem put_bytes_append (out : WStream) (a b : List Byte) (w : World) :
    put_bytes out b (put_bytes out a w) = put_bytes out (a ++ b) w := by
  cases out with
  | stdout => simp [put_bytes]
  | stderr => simp [put_bytes]
  | file q =>
    simp only [put_bytes, World.mk.injEq, and_true, true_and]
    funext r
    by_cases hr : r = q <;> simp [hr]

/-- Without a write error the loop appends all the pending bytes to `out`. -/
theorem copy_loop_all (out : WStream) : ∀ (n : Nat) (pend : List Byte) (w : World),
    pend.length ≤ n → w.wfault = none →
    copy_loop out pend w = if pend = [] then w else put_bytes out pend w := by
  intro n
  induction n with
  | zero =>
    intro pend w hn _
    have : pend = [] := List.length_eq_zero.mp (Nat.le_zero.mp hn)
    subst this
    rw [copy_loop]
    simp [fread]
  | succ n ih =>
    intro pend w hn hw
    rw [copy_loop]
    cases pend with
    | nil => simp [fread]
    | cons c cs =>
      have hlen : ((c :: cs).drop BUF_SIZE).length ≤ n := by
        simp only [List.length_drop, List.length_cons, BUF_SIZE] at *
        omega
      have hw1 : (fwrite ((c :: cs).take BUF_SIZE) out w).wfault = none := by
        simp [fwrite, hw, put_bytes_wfault]
      simp only [fread]
      rw [if_pos (by simp [BUF_SIZE]), ih _ _ hlen hw1, if_neg (List.cons_ne_nil c cs)]
      have hsplit := List.take_append_drop BUF_SIZE (c :: cs)
      by_cases h : (c :: cs).drop BUF_SIZE = []
      · rw [if_pos h]
        rw [h, List.append_nil] at hsplit
        simp only [fwrite, hw, hsplit]
      · rw [if_neg h]
        simp only [fwrite, hw, put_bytes_append, hsplit]

theorem main_cat (p : String) (rest : List String) (w : World) :
    main (p :: "cat" :: rest) w = (write_file rest[0]? rest[1]? w).map fun w1 => (0, w1) := by
  cases rest with
  | nil => simp [main]
  | cons a r =>
    cases r with
    | nil => simp [main]
    | cons b r2 => simp [main]

/-- C1, as stated, fails when source and destination are the same file: with
`f` holding `xy`, every open, read and write of `cat f f` succeeds, yet opening
the destination truncates `f` before the first read and `f` ends up empty. -/
theorem cat_same_file_truncates :
    is_reg_file (some "f") = true ∧ World.demo.files "f" = some ['x', 'y'] ∧
      World.demo.writable "f" = true ∧ World.demo.rfault = none ∧ World.demo.wfault = none ∧
      (main ["echocat", "cat", "f", "f"] World.demo).map (fun r => (r.1, r.2.files "f")) =
        some (0, some []) := by
  refine ⟨by decide, by decide, rfl, rfl, rfl, ?_⟩
  simp [main, write_file, open_in, open_out, is_reg_file, fopen_rb, fopen_wb, World.demo,
    World.blank, pending, copy_loop, fread]

/-- C1, amended: for every byte sequence `B`, when `cat src dst` is run with
`src` and `dst` two different regular-file names, `src` holding `B`, `dst`
writable and no read or write error, `main` returns 0 and the world afterwards
differs only in that `dst` holds exactly `B`. -/
theorem cat_copies_file (p src dst : String) (B : List Byte) (w : World)
    (hsrc : is_reg_file (some src) = true) (hdst : is_reg_file (some dst) = true)
    (hne : src ≠ dst) (hB : w.files src = some B) (hw : w.writable dst = true)
    (hr : w.rfault = none) (hwf : w.wfault = none) :
    main [p, "cat", src, dst] w =
      some (0, { w with files := fun q => if q = dst then some B else w.files q }) := by
  rw [main_cat]
  have hin : open_in (some src) w = some (RStream.file src) := by
    simp [open_in, hsrc, fopen_rb, hB]
  have hout : open_out (some dst) w = (some (WStream.file dst),
      { w with files := fun q => if q = dst then some [] else w.files q }) := by
    simp [open_out, hdst, fopen_wb, hw]
  have hpend : pending (RStream.file src)
      { w with files := fun q => if q = dst then some [] else w.files q } = B := by
    simp [pending, hr, hne, hB]
  simp only [List.getElem?_cons_zero, List.getElem?_cons_succ, write_file, hin, hout,
    hpend, Option.map_some']
  rw [copy_loop_all (WStream.file dst) B.length B
    { w with files := fun q => if q = dst then some [] else w.files q } (Nat.le_refl _) hwf]
  by_cases hnil : B = []
  · rw [if_pos hnil, hnil]
  · rw [if_neg hnil]
    simp only [put_bytes, if_true, Option.getD_some, List.nil_append, Option.some.injEq,
      Prod.mk.injEq, true_and, World.mk.injEq, and_true]
    funext q
    by_cases hq : q = dst <;> simp [hq]

theorem cat_copies_file_witness :
    (is_reg_file (some "a") = true ∧ is_reg_file (some "b") = true ∧ "a" ≠ "b" ∧
      World.demo.files "a" = some ['x', 'y'] ∧ World.demo.writable "b" = true ∧
      World.demo.rfault = none ∧ World.demo.wfault = none) ∧
    main ["echocat", "cat", "a", "b"] World.demo =
      some (0, { World.demo with
        files := fun q => if q = "b" then some ['x', 'y'] else World.demo.files q }) :=
  ⟨⟨by decide, by decide, by decide, by decide, rfl, rfl, rfl⟩,
    cat_copies_file "echocat" "a" "b" ['x', 'y'] World.demo
      (by decide) (by decide) (by decide) (by decide) rfl rfl rfl⟩

/-- C3, as stated, fails: with a destination that accepts one byte and then
fails every write, `cat a b` on a two-byte file `a` leaves one byte in `b` and
`main` still returns 0. -/
theorem cat_write_error_status_zero :
    World.full.wfault = some 1 ∧ pending (RStream.file "a") World.full = ['x', 'y'] ∧
      (main ["echocat", "cat", "a", "b"] World.full).map (fun r => (r.1, r.2.files "b")) =
        some (0, some ['x']) := by
  refine ⟨rfl, by decide, ?_⟩
  simp [main, write_file, open_in, open_out, is_reg_file, fopen_rb, fopen_wb, World.full,
    World.demo, World.blank, pending, copy_loop, fread, fwrite, put_bytes, BUF_SIZE]

/-- C3, amended: for the `cat` sub-command `main` returns status 0 whenever
both streams are there (a standard stream, or a file whose `fopen` succeeded),
whether or not a read or a write fails during the copy; when an `fopen` fails
`main` returns no status: the null stream goes unchecked to the C library. -/
theorem cat_status (p : String) (rest : List String) (w : World) :
    (main (p :: "cat" :: rest) w).map Prod.fst =
      if (open_in rest[0]? w).isSome ∧ (open_out rest[1]? w).1.isSome then some 0 else none := by
  rw [main_cat]
  unfold write_file
  cases hi : open_in rest[0]? w with
  | none => simp
  | some i =>
    cases ho : (open_out rest[1]? w).1 with
    | none => simp [ho]
    | some o => simp [ho]

/-- C4, as stated, fails: the source name `stdout` is not opened as a file, it
gives standard input even when a file of that name exists; the destination
name `stdin` is not opened as a file, it gives standard output. -/
theorem pseudo_names_shared :
    World.demo.files "stdout" = some ['x', 'y'] ∧
      fopen_rb "stdout" World.demo = some (RStream.file "stdout") ∧
      open_in (some "stdout") World.demo = some RStream.stdin ∧
      open_in (some "stderr") World.demo = some RStream.stdin ∧
      World.demo.writable "stdin" = true ∧
      open_out (some "stdin") World.demo = (some WStream.stdout, World.demo) := by
  refine ⟨by decide, by decide, by decide, by decide, rfl, ?_⟩
  simp [open_out, is_reg_file]

/-- C4, amended: a name is a file path exactly when it is present and none of
`-`, `stdin`, `stdout`, `stderr`, in both directions alike. For the source,
absent and each of the four pseudo-names give standard input and every other
string is opened for binary reading; for the destination, absent, `-`, `stdin`
and `stdout` give standard output, `stderr` gives standard error and every
other string is opened for binary writing. -/
theorem resolver_rules (w : World) :
    (∀ name : Option String, is_reg_file name = true ↔
      ∃ p, name = some p ∧ p ∉ ["-", "stdin", "stdout", "stderr"]) ∧
    (∀ name ∈ [none, some "-", some "stdin", some "stdout", some "stderr"],
      open_in name w = some RStream.stdin) ∧
    (∀ p, p ∉ ["-", "stdin", "stdout", "stderr"] → open_in (some p) w = fopen_rb p w) ∧
    (∀ name ∈ [none, some "-", some "stdin", some "stdout"],
      open_out name w = (some WStream.stdout, w)) ∧
    open_out (some "stderr") w = (some WStream.stderr, w) ∧
    (∀ p, p ∉ ["-", "stdin", "stdout", "stderr"] → open_out (some p) w = fopen_wb p w) := by
  refine ⟨?_, ?_, ?_, ?_, ?_, ?_⟩
  · intro name
    cases name with
    | none => simp [is_reg_file]
    | some s => simp [is_reg_file, and_assoc]
  · intro name hn
    simp only [List.mem_cons, List.mem_singleton, List.not_mem_nil, or_false] at hn
    rcases hn with rfl | rfl | rfl | rfl | rfl <;> simp [open_in, is_reg_file]
  · intro p hp
    simp only [List.mem_cons, List.mem_singleton, List.not_mem_nil, or_false, not_or] at hp
    simp [open_in, is_reg_file, hp]
  · intro name hn
    simp only [List.mem_cons, List.mem_singleton, List.not_mem_nil, or_false] at hn
    rcases hn with rfl | rfl | rfl | rfl <;> simp [open_out, is_reg_file]
  · simp [open_out, is_reg_file]
  · intro p hp
    simp only [List.mem_cons, List.mem_singleton, List.not_mem_nil, or_false, not_or] at hp
    simp [open_out, is_reg_file, hp]

/-! ## The sub-command `exit` -/

theorem isdigit_digitChar (m : Nat) (hm : m < 10) :
    isdigit (Nat.digitChar m) = true ∧ (Nat.digitChar m).toNat - '0'.toNat = m := by
  interval_cases m <;> exact ⟨by decide, by decide⟩

theorem isdigit_plain (c : Char) (h : isdigit c = true) :
    isspace c = false ∧ c ≠ '-' ∧ c ≠ '+' := by
  refine ⟨?_, ?_, ?_⟩
  · simp only [isspace, decide_eq_false_iff_not, not_or]
    refine ⟨?_, ?_, ?_, ?_, ?_, ?_⟩ <;> (rintro rfl; revert h; decide)
  · rintro rfl; revert h; decide
  · rintro rfl; revert h; decide

/-- Reading back the digits `Nat.toDigitsCore` puts in front of `acc`. -/
theorem digits_value_toDigitsCore (fuel : Nat) : ∀ n : Nat, n < fuel →
    ∃ g : Nat → Nat, g 0 = n ∧
      ∀ (a : Nat) (acc : List Char),
        digits_value a (Nat.toDigitsCore 10 fuel n acc) = digits_value (g a) acc := by
  induction fuel with
  | zero => intro n h; exact absurd h (Nat.not_lt_zero n)
  | succ fuel ih =>
    intro n hn
    obtain ⟨hd, hv⟩ := isdigit_digitChar (n % 10) (Nat.mod_lt n (by decide))
    by_cases h10 : n / 10 = 0
    · refine ⟨fun a => a * 10 + n % 10, by show 0 * 10 + n % 10 = n; omega, ?_⟩
      intro a acc
      rw [Nat.toDigitsCore]
      simp only [h10, if_true, digits_value, hd, hv]
    · obtain ⟨g, hg0, hg⟩ := ih (n / 10) (by omega)
      refine ⟨fun a => g a * 10 + n % 10, by show g 0 * 10 + n % 10 = n; rw [hg0]; omega, ?_⟩
      intro a acc
      rw [Nat.toDigitsCore]
      simp only [h10, if_false, hg, digits_value, hd, hv, if_true]

/-- The digits of `Nat.toDigitsCore` start with a digit. -/
theorem toDigitsCore_head (fuel : Nat) : ∀ (n : Nat) (acc : List Char), n < fuel →
    ∃ c cs, Nat.toDigitsCore 10 fuel n acc = c :: cs ∧ isdigit c = true := by
  induction fuel with
  | zero => intro n _ h; exact absurd h (Nat.not_lt_zero n)
  | succ fuel ih =>
    intro n acc hn
    rw [Nat.toDigitsCore]
    by_cases h10 : n / 10 = 0
    · simp only [h10, if_true]
      exact ⟨_, _, rfl, (isdigit_digitChar (n % 10) (Nat.mod_lt n (by decide))).1⟩
    · simp only [h10, if_false]
      exact ih (n / 10) _ (by omega)

/-- The `%d` conversion reads the decimal text of `n` back as `n`. -/
theorem scan_int_repr (n : Nat) : scan_int (Nat.repr n).data = some (n : Int) := by
  have hdata : (Nat.repr n).data = Nat.toDigitsCore 10 (n + 1) n [] := rfl
  obtain ⟨c, cs, hcs, hc⟩ := toDigitsCore_head (n + 1) n [] (Nat.lt_succ_self n)
  obtain ⟨g, hg0, hg⟩ := digits_value_toDigitsCore (n + 1) n (Nat.lt_succ_self n)
  obtain ⟨hsp, hminus, hplus⟩ := isdigit_plain c hc
  have hval : digits_value 0 (c :: cs) = n := by
    rw [← hcs, hg 0 [], hg0]
    rfl
  rw [hdata, hcs, scan_int]
  simp only [List.dropWhile, hsp, hminus, hplus, if_false, hc, if_true, hval]

/-- The `%d` conversion fails exactly when, white space skipped, the text does
not begin with an optionally signed decimal integer. -/
theorem scan_int_eq_none (cs : List Char) :
    scan_int cs = none ↔ begins_with_integer (cs.dropWhile isspace) = false := by
  unfold scan_int begins_with_integer
  cases cs.dropWhile isspace with
  | nil => simp
  | cons c rest =>
    by_cases hm : c = '-'
    · subst hm
      cases rest with
      | nil => simp
      | cons d r => by_cases hd : isdigit d = true <;> simp [hd]
    · by_cases hp : c = '+'
      · subst hp
        cases rest with
        | nil => simp
        | cons d r => by_cases hd : isdigit d = true <;> simp [hd]
      · by_cases hd : isdigit c = true <;> simp [hm, hp, hd]

/-- C6, as stated, fails: ` 7` does not begin with an optionally signed decimal
integer (it begins with a space), yet `exit " 7"` returns 7, not 0: `%d` skips
leading white space. -/
theorem exit_leading_space :
    begins_with_integer " 7".data = false ∧
      (main ["echocat", "exit", " 7"] World.blank).map Prod.fst = some 7 := by
  constructor <;> decide

/-- C6, amended: for `exit s`, if `s` is the decimal text of an integer `n` of
the exit-status range 0..255, `main` returns exactly `n` (so `exit 7` returns
7); if `s`, its leading white space skipped, does not begin with an optionally
signed decimal integer, `main` returns exactly 0 (so for `abc` and for the
empty string). In both cases the world is unchanged: nothing is written. -/
theorem exit_status (p : String) (w : World) :
    (∀ n : Nat, n ≤ 255 → main [p, "exit", toString n] w = some ((n : Int), w)) ∧
    (∀ s : String, begins_with_integer (s.data.dropWhile isspace) = false →
      main [p, "exit", s] w = some (0, w)) ∧
    main [p, "exit", "7"] w = some (7, w) ∧
    main [p, "exit", "abc"] w = some (0, w) ∧
    main [p, "exit", ""] w = some (0, w) := by
  have hmain : ∀ s : String, main [p, "exit", s] w = (sscanf_d s 0).map fun rc => (rc, w) := by
    intro s
    simp [main]
  have hfail : ∀ s : String, begins_with_integer (s.data.dropWhile isspace) = false →
      main [p, "exit", s] w = some (0, w) := by
    intro s hs
    rw [hmain, sscanf_d, (scan_int_eq_none s.data).mpr hs]
    rfl
  have hnum : ∀ n : Nat, n ≤ 255 → main [p, "exit", toString n] w = some ((n : Int), w) := by
    intro n hn
    have hrepr : toString n = Nat.repr n := rfl
    rw [hmain, hrepr, sscanf_d, scan_int_repr]
    have hrange : INT_MIN ≤ (n : Int) ∧ (n : Int) ≤ INT_MAX := by
      simp only [INT_MIN, INT_MAX]
      omega
    simp [hrange]
  exact ⟨hnum, hfail, hnum 7 (by decide), hfail "abc" (by decide), hfail "" (by decide)⟩

end Echocat
